import Mathlib

/-!
Verification of the location-processing pipeline of `jhennessy/locations`
(`src/server/processing.py`, with the visit merger and the per-device
reprocess endpoint of `src/server/api.py`).

Modelling conventions:
* Python floats for coordinates, thresholds and (second-valued) timestamps
  are embedded as `ℚ`; Python ints as `ℤ`/`ℕ`.  `datetime` values are
  embedded as rational epoch seconds, so `(a - b).total_seconds()` is `a - b`.
  `datetime.datetime.min` (the "beginning of time" sentinel of
  `process_device_locations`) is embedded as `none : Option ℚ`.
* `haversine_m` computes with `math.sin`/`math.cos`/`math.atan2` on floats,
  which has no exact executable embedding; every claim below is about the
  pipeline structure around it, so the code is embedded parametrically in a
  distance function `dist : ℚ → ℚ → ℚ → ℚ → ℚ` standing for
  `haversine_m(lat1, lon1, lat2, lon2)`, and theorems quantify over `dist`.
* The SQLAlchemy session is embedded as an explicit record `DB` of row
  lists; queries become list filters, `ORDER BY x ASC` becomes a stable
  merge sort, mutation of a fetched ORM row becomes replacement by id.
* The Nominatim HTTP call of `reverse_geocode` is embedded as a parameter:
  `none` models a raised `requests` exception, `some (status, body)` a
  response with that status code whose JSON `display_name` is `body`.
-/

namespace Locations

/-- Threshold set: module-level constants of `processing.py` together with
`visit_merge_gap_s` from `DEFAULT_THRESHOLDS` in `database.py`. -/
structure Thresholds where
  max_horizontal_accuracy_m : ℚ
  max_speed_ms : ℚ
  min_point_interval_s : ℚ
  visit_radius_m : ℚ
  min_visit_duration_s : ℚ
  place_snap_radius_m : ℚ
  visit_merge_gap_s : ℚ
deriving DecidableEq

/-- The documented default thresholds (processing.py constants and
database.py `DEFAULT_THRESHOLDS`). -/
def defaultThresholds : Thresholds :=
  { max_horizontal_accuracy_m := 100
    max_speed_ms := 85
    min_point_interval_s := 2
    visit_radius_m := 50
    min_visit_duration_s := 300
    place_snap_radius_m := 80
    visit_merge_gap_s := 180 }

/-- A raw GPS point (the dict rows `_process_locations_since` builds from
`Location` rows; `altitude` is carried along but never read, so omitted). -/
structure GPoint where
  latitude : ℚ
  longitude : ℚ
  horizontal_accuracy : Option ℚ := none
  speed : Option ℚ := none
  timestamp : ℚ
deriving DecidableEq

/-- Abstract stand-in for `haversine_m(lat1, lon1, lat2, lon2)`. -/
abbrev Dist := ℚ → ℚ → ℚ → ℚ → ℚ

/-- Python `int(x)` on a float: truncation toward zero. -/
def truncQ (q : ℚ) : ℤ := if q < 0 then ⌈q⌉ else ⌊q⌋

/-- Comparison key of `sorted(points, key=lambda p: p["timestamp"])`.
Python's `sorted` is a stable sort; it is embedded as insertion sort, which
is also stable, so both produce the same list. -/
def tsLe (a b : GPoint) : Prop := a.timestamp ≤ b.timestamp

instance : DecidableRel tsLe :=
  fun a b => (inferInstance : Decidable (a.timestamp ≤ b.timestamp))

instance : IsTotal GPoint tsLe := ⟨fun a b => le_total a.timestamp b.timestamp⟩

instance : IsTrans GPoint tsLe := ⟨fun _ _ _ h1 h2 => le_trans h1 h2⟩

/-- The accuracy test of `filter_gps_errors`:
`acc is not None and acc > max_acc`. -/
def accBad (maxAcc : ℚ) (pt : GPoint) : Bool :=
  match pt.horizontal_accuracy with
  | some a => maxAcc < a
  | none => false

/-- The speed test of `filter_gps_errors`:
`speed is not None and speed > max_spd`. -/
def speedBad (maxSpd : ℚ) (pt : GPoint) : Bool :=
  match pt.speed with
  | some s => maxSpd < s
  | none => false

/-- The loop of `filter_gps_errors`: `filtered` is the accumulator list the
source appends to, `lastTs` its `last_ts` variable. -/
def filterLoop (maxAcc maxSpd minInt : ℚ) :
    List GPoint → List GPoint → Option ℚ → List GPoint
  | [], filtered, _ => filtered
  | pt :: rest, filtered, lastTs =>
    if accBad maxAcc pt then
      filterLoop maxAcc maxSpd minInt rest filtered lastTs
    else if speedBad maxSpd pt then
      filterLoop maxAcc maxSpd minInt rest filtered lastTs
    else
      match lastTs with
      | some t =>
        if pt.timestamp - t < minInt then
          filterLoop maxAcc maxSpd minInt rest filtered lastTs
        else
          filterLoop maxAcc maxSpd minInt rest (filtered ++ [pt]) (some pt.timestamp)
      | none =>
        filterLoop maxAcc maxSpd minInt rest (filtered ++ [pt]) (some pt.timestamp)

/-- `filter_gps_errors(points, thresholds)` of `processing.py`. -/
def filter_gps_errors (th : Thresholds) (points : List GPoint) : List GPoint :=
  match points with
  | [] => []
  | _ :: _ =>
    filterLoop th.max_horizontal_accuracy_m th.max_speed_ms th.min_point_interval_s
      (points.insertionSort tsLe) [] none

/-- A candidate visit (the dicts produced by `detect_visits`). -/
structure CandVisit where
  latitude : ℚ
  longitude : ℚ
  arrival : ℚ
  departure : ℚ
  duration_seconds : ℤ
deriving DecidableEq

/-- `_maybe_emit_visit(cluster, centroid_lat, centroid_lon, visits, min_duration)`. -/
def maybeEmitVisit (cluster : List GPoint) (cx cy : ℚ) (visits : List CandVisit)
    (minDur : ℚ) : List CandVisit :=
  match cluster with
  | [] => visits
  | p :: rest =>
    if (p :: rest).length < 2 then visits
    else
      let arrival := p.timestamp
      let departure := ((p :: rest).getLast (List.cons_ne_nil p rest)).timestamp
      let dur := departure - arrival
      if minDur ≤ dur then
        visits ++ [{ latitude := cx, longitude := cy, arrival := arrival,
                     departure := departure, duration_seconds := truncQ dur }]
      else visits

/-- The loop of `detect_visits`: walks the remaining points carrying the
current cluster, its running centroid `(cx, cy)` and the emitted visits. -/
def detectLoop (dist : Dist) (radius minDur : ℚ) :
    List GPoint → List GPoint → ℚ → ℚ → List CandVisit → List CandVisit
  | [], cluster, cx, cy, visits => maybeEmitVisit cluster cx cy visits minDur
  | pt :: rest, cluster, cx, cy, visits =>
    if dist cx cy pt.latitude pt.longitude ≤ radius then
      let c2 := cluster ++ [pt]
      detectLoop dist radius minDur rest c2
        (cx + (pt.latitude - cx) / (c2.length : ℚ))
        (cy + (pt.longitude - cy) / (c2.length : ℚ)) visits
    else
      detectLoop dist radius minDur rest [pt] pt.latitude pt.longitude
        (maybeEmitVisit cluster cx cy visits minDur)

/-- `detect_visits(points, thresholds)` of `processing.py`. -/
def detect_visits (dist : Dist) (th : Thresholds) (points : List GPoint) :
    List CandVisit :=
  match points with
  | [] => []
  | p :: rest =>
    if (p :: rest).length < 2 then []
    else detectLoop dist th.visit_radius_m th.min_visit_duration_s rest
      [p] p.latitude p.longitude []

/-- The fold of the visit merger: `cur` is the open merged visit, `acc` the
closed ones. -/
def mergeLoop (dist : Dist) (radius gap : ℚ) :
    List CandVisit → CandVisit → List CandVisit → List CandVisit
  | [], cur, acc => acc ++ [cur]
  | v :: rest, cur, acc =>
    if dist cur.latitude cur.longitude v.latitude v.longitude ≤ radius ∧
        v.arrival - cur.departure ≤ gap then
      let dep := max cur.departure v.departure
      mergeLoop dist radius gap rest
        { latitude := cur.latitude, longitude := cur.longitude,
          arrival := cur.arrival, departure := dep,
          duration_seconds := truncQ (dep - cur.arrival) } acc
    else
      mergeLoop dist radius gap rest v (acc ++ [cur])

/-- Modelled from the spec: `merge_nearby_visits` is imported from
`processing` by `tests/test_processing.py` and its threshold
`visit_merge_gap_s` is declared in `database.py`, but the function itself is
absent from `src/server/processing.py`.  Definition follows spec section 4.3:
fold left over chronologically ordered visits keeping an open visit; merge a
subsequent visit when its centroid is within `visit_radius_m` of the open
visit's centroid and its arrival is at most `visit_merge_gap_s` after the
open visit's departure; a merge keeps the open visit's centroid and arrival,
takes the later departure and recomputes the duration from the full span;
otherwise the open visit is emitted and the current one becomes open. -/
def merge_nearby_visits (dist : Dist) (th : Thresholds) (visits : List CandVisit) :
    List CandVisit :=
  match visits with
  | [] => []
  | v :: rest => mergeLoop dist th.visit_radius_m th.visit_merge_gap_s rest v []

/-- A row of the `places` table (fields the pipeline reads or writes). -/
structure PlaceRow where
  id : ℕ
  user_id : ℕ
  latitude : ℚ
  longitude : ℚ
  address : Option String := none
  visit_count : ℤ := 0
  total_duration_seconds : ℤ := 0
deriving DecidableEq

/-- A row of the `visits` table (fields the pipeline reads or writes). -/
structure VisitRow where
  device_id : ℕ
  place_id : ℕ
  latitude : ℚ
  longitude : ℚ
  arrival : ℚ
  departure : ℚ
  duration_seconds : ℤ
  address : Option String
deriving DecidableEq

/-- A row of the `locations` table: the owning device and the point data. -/
structure LocationRow where
  device_id : ℕ
  point : GPoint
deriving DecidableEq

/-- The database state the pipeline touches.  `next_place_id` models the
autoincrement id assigned by `db.flush()` in `snap_to_place`. -/
structure DB where
  locations : List LocationRow
  places : List PlaceRow
  visits : List VisitRow
  next_place_id : ℕ
deriving DecidableEq

/-- The scan of `snap_to_place` over the user's places: `best` carries
`(best_place, best_dist)`, updated when `d < best_dist`; `none` models the
initial `best_place = None` / `best_dist = inf` state. -/
def snapScan (dist : Dist) (lat lon : ℚ) :
    List PlaceRow → Option (PlaceRow × ℚ) → Option (PlaceRow × ℚ)
  | [], best => best
  | p :: rest, none =>
    snapScan dist lat lon rest (some (p, dist lat lon p.latitude p.longitude))
  | p :: rest, some (bp, bd) =>
    if dist lat lon p.latitude p.longitude < bd then
      snapScan dist lat lon rest (some (p, dist lat lon p.latitude p.longitude))
    else snapScan dist lat lon rest (some (bp, bd))

/-- `snap_to_place(db, user_id, lat, lon, thresholds)` of `processing.py`:
returns the snapped (or newly created) place and the resulting session
state. -/
def snap_to_place (dist : Dist) (db : DB) (usr : ℕ) (lat lon : ℚ)
    (th : Thresholds) : PlaceRow × DB :=
  let places := db.places.filter (fun p => p.user_id == usr)
  let newPlace : PlaceRow :=
    { id := db.next_place_id, user_id := usr, latitude := lat, longitude := lon,
      address := none, visit_count := 0, total_duration_seconds := 0 }
  let dbCreated : DB :=
    { db with
      places := db.places ++ [newPlace]
      next_place_id := db.next_place_id + 1 }
  let created : PlaceRow × DB := (newPlace, dbCreated)
  match snapScan dist lat lon places none with
  | some (bp, bd) => if bd ≤ th.place_snap_radius_m then (bp, db) else created
  | none => created

/-- `reverse_geocode(lat, lon)` of `processing.py` with the HTTP exchange
made explicit: `resp = none` models a raised exception (caught, logged and
swallowed), `some (status, displayName)` a response; only a 200 status
yields the body's `display_name`. -/
def reverse_geocode (resp : Option (ℕ × Option String)) : Option String :=
  match resp with
  | none => none
  | some (status, displayName) => if status = 200 then displayName else none

/-- Python truthiness of `place.address` used by `if not place.address`. -/
def addrMissing : Option String → Bool
  | none => true
  | some s => s == ""

/-- Replace the user's place row with the given id (ORM row mutation). -/
def updatePlace (ps : List PlaceRow) (pid : ℕ) (f : PlaceRow → PlaceRow) :
    List PlaceRow :=
  ps.map (fun p => if p.id = pid then f p else p)

/-- The per-candidate loop of `_process_locations_since` (steps 3 and 4):
snap, geocode when the place has no address, bump the place counters and
persist a `Visit` row. -/
def snapLoop (dist : Dist) (geocode : ℚ → ℚ → Option String) (dev usr : ℕ)
    (th : Thresholds) :
    List CandVisit → List VisitRow → DB → List VisitRow × DB
  | [], acc, db => (acc, db)
  | v :: rest, acc, db =>
    let r := snap_to_place dist db usr v.latitude v.longitude th
    let place := r.1
    let db1 := r.2
    let place2 :=
      if addrMissing place.address then
        match geocode place.latitude place.longitude with
        | some a => if a ≠ "" then { place with address := some a } else place
        | none => place
      else place
    let place3 := { place2 with
      visit_count := place2.visit_count + 1,
      total_duration_seconds := place2.total_duration_seconds + v.duration_seconds }
    let db2 := { db1 with places := updatePlace db1.places place.id (fun _ => place3) }
    let visit : VisitRow :=
      { device_id := dev, place_id := place.id, latitude := v.latitude,
        longitude := v.longitude, arrival := v.arrival, departure := v.departure,
        duration_seconds := v.duration_seconds, address := place3.address }
    snapLoop dist geocode dev usr th rest (acc ++ [visit])
      { db2 with visits := db2.visits ++ [visit] }

/-- The raw-point query of `_process_locations_since`: the device's
locations strictly after `since` (with `since = none` for
`datetime.datetime.min`), ordered by timestamp ascending. -/
def locationsSince (db : DB) (dev : ℕ) (since : Option ℚ) : List GPoint :=
  (((db.locations.filter (fun l =>
      l.device_id == dev &&
        match since with
        | none => true
        | some t => decide (t < l.point.timestamp))).map
    (fun l => l.point)).insertionSort tsLe)

/-- `_process_locations_since(db, device_id, user_id, since, thresholds)`:
returns the newly created visits and the committed session state. -/
def process_locations_since (dist : Dist) (geocode : ℚ → ℚ → Option String)
    (db : DB) (dev usr : ℕ) (since : Option ℚ) (th : Thresholds) :
    List VisitRow × DB :=
  let pts := locationsSince db dev since
  if pts = [] then ([], db)
  else
    let clean := filter_gps_errors th pts
    if clean = [] then ([], db)
    else
      let cands := detect_visits dist th clean
      if cands = [] then ([], db)
      else snapLoop dist geocode dev usr th cands [] db

/-- The `since` cursor of `process_device_locations`: departure of the
device's most recent visit, or `none` for `datetime.datetime.min`. -/
def latestDeparture (db : DB) (dev : ℕ) : Option ℚ :=
  ((db.visits.filter (fun v => v.device_id == dev)).map
    (fun v => v.departure)).max?

/-- `process_device_locations(db, device_id, user_id, thresholds)`. -/
def process_device_locations (dist : Dist) (geocode : ℚ → ℚ → Option String)
    (db : DB) (dev usr : ℕ) (th : Thresholds) : List VisitRow × DB :=
  process_locations_since dist geocode db dev usr (latestDeparture db dev) th

/-- `reprocess_visits` of `api.py` (`POST /visits/{device_id}/reprocess`):
deletes the device's visits, commits, and runs
`process_device_locations`. -/
def reprocess_visits (dist : Dist) (geocode : ℚ → ℚ → Option String)
    (db : DB) (dev usr : ℕ) (th : Thresholds) : List VisitRow × DB :=
  let db1 := { db with visits := db.visits.filter (fun v => v.device_id != dev) }
  process_device_locations dist geocode db1 dev usr th

/-- Reference form of the filter loop, written from the spec's words
(section 4.1): a point passing the accuracy and speed checks is kept iff no
point has been kept yet or its timestamp is at least `min_point_interval_s`
after the timestamp of the last KEPT point (`lastTs`), which is exactly what
is carried through the recursion. -/
def filterKeep (maxAcc maxSpd minInt : ℚ) : List GPoint → Option ℚ → List GPoint
  | [], _ => []
  | pt :: rest, lastTs =>
    if accBad maxAcc pt then filterKeep maxAcc maxSpd minInt rest lastTs
    else if speedBad maxSpd pt then filterKeep maxAcc maxSpd minInt rest lastTs
    else
      match lastTs with
      | some t =>
        if pt.timestamp - t < minInt then filterKeep maxAcc maxSpd minInt rest lastTs
        else pt :: filterKeep maxAcc maxSpd minInt rest (some pt.timestamp)
      | none => pt :: filterKeep maxAcc maxSpd minInt rest (some pt.timestamp)

/-- Reference filter written from the spec's words: sort by timestamp, then
apply the keep rule of `filterKeep` with no point kept yet. -/
def filterSpec (th : Thresholds) (points : List GPoint) : List GPoint :=
  filterKeep th.max_horizontal_accuracy_m th.max_speed_ms th.min_point_interval_s
    (points.insertionSort tsLe) none

/-- One running-mean update of `detect_visits`
(`centroid += (point - centroid) / cluster_size`), where `n` is the cluster
size before the point joined, so `n + 1` after. -/
def centroidStep (c : ℚ) (n : ℕ) (x : ℚ) : ℚ := c + (x - c) / ((n : ℚ) + 1)

/-- Folding the running-mean update over further coordinates, `n` members
having already been absorbed into `c`. -/
def centroidRun : ℚ → ℕ → List ℚ → ℚ
  | c, _, [] => c
  | c, n, x :: xs => centroidRun (centroidStep c n x) (n + 1) xs

/-- The running centroid of a coordinate list, seeded with its first
element, exactly as `detect_visits` maintains `cx` and `cy`. -/
def incrementalCentroid : List ℚ → ℚ
  | [] => 0
  | x :: xs => centroidRun x 1 xs

/-- A candidate visit whose coordinates are the running centroid of the
member coordinates of some at-least-two-point sub-collection of the input. -/
def fromRunningCentroid (pts : List GPoint) (v : CandVisit) : Prop :=
  ∃ c : List GPoint, 2 ≤ c.length ∧ c.Sublist pts ∧
    v.latitude = incrementalCentroid (c.map GPoint.latitude) ∧
    v.longitude = incrementalCentroid (c.map GPoint.longitude)

/-- Distance function used to instantiate the abstract `dist` at concrete
inputs: points are laid out along one axis and the distance is the absolute
latitude difference, read in metres. -/
def lineDist : Dist := fun lat1 _ lat2 _ => if lat1 ≤ lat2 then lat2 - lat1 else lat1 - lat2

/-- A geocoder all of whose lookups fail (`reverse_geocode` returning
`None`). -/
def geocodeNone : ℚ → ℚ → Option String := fun _ _ => none

/-- A clean GPS point (no accuracy or speed reading) at a latitude offset
and an epoch-second timestamp. -/
def mkPt (lat ts : ℚ) : GPoint := { latitude := lat, longitude := 0, timestamp := ts }

/-- Five clean points: two at offset 0 (0 s and 300 s), one at offset 60
(360 s), two at offset 20 (420 s and 700 s).  The detector emits two visits
whose centroids end up 100/3 m apart with a 60 s gap, so the merger would
combine them. -/
def ptsA : List GPoint := [mkPt 0 0, mkPt 0 300, mkPt 60 360, mkPt 20 420, mkPt 20 700]

/-- Database holding `ptsA` as raw locations of device 1 (user 1). -/
def dbA : DB :=
  { locations := ptsA.map (fun p => { device_id := 1, point := p }),
    places := [], visits := [], next_place_id := 0 }

/-- Four clean points: a 300 s stay at offset 0, then a point at offset 100
one second after the stay ends (dropped by the first filter pass as a burst
duplicate) and another at offset 100 five minutes later. -/
def ptsB : List GPoint := [mkPt 0 0, mkPt 0 300, mkPt 100 301, mkPt 100 601]

/-- Database holding `ptsB` as raw locations of device 1 (user 1). -/
def dbB : DB :=
  { locations := ptsB.map (fun p => { device_id := 1, point := p }),
    places := [], visits := [], next_place_id := 0 }

/-- Two clean points at the same spot 400 s apart: one visit, one place. -/
def ptsC : List GPoint := [mkPt 0 0, mkPt 0 400]

/-- Database holding `ptsC` as raw locations of device 1 (user 1). -/
def dbC : DB :=
  { locations := ptsC.map (fun p => { device_id := 1, point := p }),
    places := [], visits := [], next_place_id := 0 }

/-- An empty database. -/
def dbEmpty : DB := { locations := [], places := [], visits := [], next_place_id := 0 }

/-- The first visit the detector emits on `ptsA` (and on `ptsB`). -/
def vA : CandVisit :=
  { latitude := 0, longitude := 0, arrival := 0, departure := 300, duration_seconds := 300 }

/-! Helper lemmas about the filter. -/

theorem filterLoop_eq_append (maxAcc maxSpd minInt : ℚ) :
    ∀ (pts acc : List GPoint) (lastTs : Option ℚ),
      filterLoop maxAcc maxSpd minInt pts acc lastTs =
        acc ++ filterKeep maxAcc maxSpd minInt pts lastTs := by
  intro pts
  induction pts with
  | nil => intro acc lastTs; simp [filterLoop, filterKeep]
  | cons pt rest ih =>
    intro acc lastTs
    simp only [filterLoop, filterKeep]
    cases h1 : accBad maxAcc pt with
    | true => simp [ih]
    | false =>
      cases h2 : speedBad maxSpd pt with
      | true => simp [ih]
      | false =>
        cases lastTs with
        | none => simp [ih]
        | some t =>
          by_cases h3 : pt.timestamp - t < minInt
          · simp [h3, ih]
          · simp [h3, ih]

theorem filter_gps_errors_eq_spec (th : Thresholds) (points : List GPoint) :
    filter_gps_errors th points = filterSpec th points := by
  cases points with
  | nil => simp [filter_gps_errors, filterSpec, filterKeep, List.insertionSort]
  | cons p rest =>
    simp only [filter_gps_errors, filterSpec]
    rw [filterLoop_eq_append]
    simp

theorem filterKeep_sublist (maxAcc maxSpd minInt : ℚ) :
    ∀ (pts : List GPoint) (lastTs : Option ℚ),
      (filterKeep maxAcc maxSpd minInt pts lastTs).Sublist pts := by
  intro pts
  induction pts with
  | nil => intro lastTs; simp [filterKeep]
  | cons pt rest ih =>
    intro lastTs
    simp only [filterKeep]
    cases h1 : accBad maxAcc pt with
    | true => exact (ih lastTs).cons pt
    | false =>
      cases h2 : speedBad maxSpd pt with
      | true => exact (ih lastTs).cons pt
      | false =>
        cases lastTs with
        | none => exact (ih (some pt.timestamp)).cons₂ pt
        | some t =>
          by_cases h3 : pt.timestamp - t < minInt
          · simp only [h3, if_true]
            exact (ih (some t)).cons pt
          · simp only [h3, if_false]
            exact (ih (some pt.timestamp)).cons₂ pt

attribute [local semireducible] Rat.add Rat.sub Rat.mul Rat.inv Rat.ofScientific in
/-- C7: in the GPS filter, a point that has passed the accuracy and speed
checks is dropped iff its timestamp is within `min_point_interval_s` of the
last point RETAINED so far (the state threaded through `filterKeep`), not
the last point of the raw stream; two clean points 1 s apart (default
interval 2 s) keep only the first, and a clean point 1 s after a dropped
point but 2 s after the last retained one is kept. -/
theorem C7_filter_drop_rule :
    (∀ (th : Thresholds) (points : List GPoint),
        filter_gps_errors th points = filterSpec th points) ∧
      filter_gps_errors defaultThresholds [mkPt 0 0, mkPt 0 1] = [mkPt 0 0] ∧
      filter_gps_errors defaultThresholds [mkPt 0 0, mkPt 5 1, mkPt 9 2] =
        [mkPt 0 0, mkPt 9 2] := by
  refine ⟨filter_gps_errors_eq_spec, ?_, ?_⟩ <;> decide

/-- C8: the GPS filter never returns more points than it was given (for any
input, sorted or not), and its output is sorted by timestamp ascending. -/
theorem C8_filter_monotone_sorted (th : Thresholds) (points : List GPoint) :
    (filter_gps_errors th points).length ≤ points.length ∧
      (filter_gps_errors th points).Pairwise tsLe := by
  have hsub : (filter_gps_errors th points).Sublist (points.insertionSort tsLe) := by
    rw [filter_gps_errors_eq_spec]
    exact filterKeep_sublist _ _ _ _ _
  constructor
  · have h1 := hsub.length_le
    rwa [List.length_insertionSort] at h1
  · exact (List.sorted_insertionSort tsLe points).sublist hsub

/-! Helper lemmas about visit emission and detection. -/

theorem maybeEmitVisit_eq (cluster : List GPoint) (cx cy : ℚ)
    (visits : List CandVisit) (minDur : ℚ) :
    maybeEmitVisit cluster cx cy visits minDur = visits ∨
      ∃ h : cluster ≠ [],
        2 ≤ cluster.length ∧
          minDur ≤ (cluster.getLast h).timestamp - (cluster.head h).timestamp ∧
          maybeEmitVisit cluster cx cy visits minDur =
            visits ++ [CandVisit.mk cx cy (cluster.head h).timestamp
              ((cluster.getLast h).timestamp)
              (truncQ ((cluster.getLast h).timestamp - (cluster.head h).timestamp))] := by
  cases cluster with
  | nil => left; rfl
  | cons p rest =>
    by_cases hlen : (p :: rest).length < 2
    · left
      simp only [maybeEmitVisit]
      rw [if_pos hlen]
    · by_cases hdur :
        minDur ≤ ((p :: rest).getLast (List.cons_ne_nil p rest)).timestamp - p.timestamp
      · right
        refine ⟨List.cons_ne_nil p rest, by omega, by simpa using hdur, ?_⟩
        simp only [maybeEmitVisit]
        rw [if_neg hlen, if_pos hdur]
        rfl
      · left
        simp only [maybeEmitVisit]
        rw [if_neg hlen, if_neg hdur]

theorem maybeEmitVisit_pos (p : GPoint) (rest : List GPoint) (cx cy : ℚ)
    (visits : List CandVisit) (minDur : ℚ)
    (hlen : 2 ≤ (p :: rest).length)
    (hdur : minDur ≤ ((p :: rest).getLast (List.cons_ne_nil p rest)).timestamp - p.timestamp) :
    maybeEmitVisit (p :: rest) cx cy visits minDur =
      visits ++ [CandVisit.mk cx cy p.timestamp
        (((p :: rest).getLast (List.cons_ne_nil p rest)).timestamp)
        (truncQ (((p :: rest).getLast (List.cons_ne_nil p rest)).timestamp - p.timestamp))] := by
  have hlen' : ¬((p :: rest).length < 2) := by omega
  simp only [maybeEmitVisit]
  rw [if_neg hlen', if_pos hdur]

theorem maybeEmit_duration (cluster : List GPoint) (cx cy : ℚ)
    (visits : List CandVisit) (minDur : ℚ)
    (hv : ∀ w ∈ visits, minDur ≤ w.departure - w.arrival) :
    ∀ w ∈ maybeEmitVisit cluster cx cy visits minDur,
      minDur ≤ w.departure - w.arrival := by
  rcases maybeEmitVisit_eq cluster cx cy visits minDur with h | ⟨hne, hl, hd, heq⟩
  · rw [h]; exact hv
  · rw [heq]
    intro w hw
    rcases List.mem_append.1 hw with hw1 | hw1
    · exact hv w hw1
    · simp only [List.mem_singleton] at hw1
      subst hw1
      simpa using hd

theorem detectLoop_duration_aux (dist : Dist) (radius minDur : ℚ) :
    ∀ (rest cluster : List GPoint) (cx cy : ℚ) (visits : List CandVisit),
      (∀ w ∈ visits, minDur ≤ w.departure - w.arrival) →
      ∀ v ∈ detectLoop dist radius minDur rest cluster cx cy visits,
        minDur ≤ v.departure - v.arrival := by
  intro rest
  induction rest with
  | nil =>
    intro cluster cx cy visits hv
    exact maybeEmit_duration cluster cx cy visits minDur hv
  | cons pt rest' ih =>
    intro cluster cx cy visits hv
    simp only [detectLoop]
    by_cases hd : dist cx cy pt.latitude pt.longitude ≤ radius
    · simp only [hd, if_true]
      exact ih _ _ _ _ hv
    · simp only [hd, if_false]
      exact ih _ _ _ _ (maybeEmit_duration cluster cx cy visits minDur hv)

/-- C4: `_maybe_emit_visit` emits a cluster as a visit iff the cluster has
at least 2 members and the timestamp span from its first to its last member
is at least `min_visit_duration_s`; consequently every visit returned by
`detect_visits` satisfies `departure - arrival ≥ min_visit_duration_s`, and
any input with fewer than 2 points yields no visits. -/
theorem C4_visit_duration_floor :
    (∀ (cluster : List GPoint) (cx cy : ℚ) (visits : List CandVisit) (minDur : ℚ),
        maybeEmitVisit cluster cx cy visits minDur ≠ visits ↔
          2 ≤ cluster.length ∧
            ∃ p q, cluster.head? = some p ∧ cluster.getLast? = some q ∧
              minDur ≤ q.timestamp - p.timestamp) ∧
      (∀ (dist : Dist) (th : Thresholds) (points : List GPoint),
          ∀ v ∈ detect_visits dist th points,
            th.min_visit_duration_s ≤ v.departure - v.arrival) ∧
      ∀ (dist : Dist) (th : Thresholds) (points : List GPoint),
        points.length < 2 → detect_visits dist th points = [] := by
  refine ⟨?_, ?_, ?_⟩
  · intro cluster cx cy visits minDur
    constructor
    · intro hne
      rcases maybeEmitVisit_eq cluster cx cy visits minDur with h | ⟨h, hl, hd, heq⟩
      · exact absurd h hne
      · exact ⟨hl, cluster.head h, cluster.getLast h,
          List.head?_eq_head h, List.getLast?_eq_getLast cluster h, hd⟩
    · rintro ⟨hl, p, q, hp, hq, hd⟩
      cases cluster with
      | nil => simp at hp
      | cons c0 crest =>
        rw [List.head?_cons, Option.some_inj] at hp
        rw [List.getLast?_eq_getLast _ (List.cons_ne_nil c0 crest), Option.some_inj] at hq
        subst hp
        subst hq
        rw [maybeEmitVisit_pos c0 crest cx cy visits minDur hl hd]
        intro heq
        have hlen := congrArg List.length heq
        simp at hlen
  · intro dist th points v hv
    cases points with
    | nil => simp [detect_visits] at hv
    | cons p rest =>
      simp only [detect_visits] at hv
      by_cases hlen : (p :: rest).length < 2
      · rw [if_pos hlen] at hv
        simp at hv
      · rw [if_neg hlen] at hv
        exact detectLoop_duration_aux dist th.visit_radius_m th.min_visit_duration_s
          rest [p] p.latitude p.longitude [] (by simp) v hv
  · intro dist th points hlen
    cases points with
    | nil => rfl
    | cons p rest =>
      simp only [detect_visits]
      rw [if_pos hlen]

attribute [local semireducible] Rat.add Rat.sub Rat.mul Rat.inv Rat.ofScientific in
/-- C4 witness: the duration floor evaluated at the first visit the detector
emits on `ptsA`, and the short-input clause at a one-point list. -/
theorem C4_visit_duration_floor_witness :
    defaultThresholds.min_visit_duration_s ≤ vA.departure - vA.arrival ∧
      detect_visits lineDist defaultThresholds [mkPt 0 0] = [] :=
  ⟨C4_visit_duration_floor.2.1 lineDist defaultThresholds ptsA vA (by decide),
    C4_visit_duration_floor.2.2 lineDist defaultThresholds [mkPt 0 0] (by decide)⟩

attribute [local semireducible] Rat.add Rat.sub Rat.mul Rat.inv Rat.ofScientific in
/-- C1: on `dbA` the incremental process operation persists the two visits
`detect(filter(points))` emits, although the merger would combine them
(their centroids are 100/3 m apart with a 60 s gap, within the 50 m radius
and 180 s merge gap): the persisted visits are not
`merge(detect(filter(points)))`, whose length is 1. -/
theorem C1_pipeline_skips_merger :
    (process_device_locations lineDist geocodeNone dbA 1 1 defaultThresholds).1.length = 2 ∧
      (merge_nearby_visits lineDist defaultThresholds
        (detect_visits lineDist defaultThresholds
          (filter_gps_errors defaultThresholds
            (locationsSince dbA 1 (latestDeparture dbA 1))))).length = 1 := by
  decide

attribute [local semireducible] Rat.add Rat.sub Rat.mul Rat.inv Rat.ofScientific in
/-- C2 counterexample: on `dbB` the first process call creates one visit
(departing at 300 s; the raw point at 301 s is dropped as a burst duplicate
of the retained point at 300 s), and a second call with no raw points added
in between creates another visit (the point at 301 s is now the first point
fetched, so the fresh filter pass keeps it and it clusters with the point at
601 s), not zero. -/
theorem C2_counterexample :
    (process_device_locations lineDist geocodeNone dbB 1 1 defaultThresholds).1.length = 1 ∧
      (process_device_locations lineDist geocodeNone
        (process_device_locations lineDist geocodeNone dbB 1 1 defaultThresholds).2
        1 1 defaultThresholds).1.length = 1 ∧
      (process_device_locations lineDist geocodeNone
        (process_device_locations lineDist geocodeNone dbB 1 1 defaultThresholds).2
        1 1 defaultThresholds).1 ≠ [] := by
  decide

/-- C2 amended: if the device has no raw point with timestamp strictly
greater than the departure of its most recently persisted visit (in
particular none at all between the calls), the incremental process
operation creates zero visits, returns the empty list, and leaves the
database unchanged. -/
theorem C2_amended_no_newer_points_noop (dist : Dist)
    (geocode : ℚ → ℚ → Option String) (db : DB) (dev usr : ℕ) (th : Thresholds)
    (h : locationsSince db dev (latestDeparture db dev) = []) :
    process_device_locations dist geocode db dev usr th = ([], db) := by
  simp [process_device_locations, process_locations_since, h]

/-- C2 amended witness: the amended theorem applied to the empty database. -/
theorem C2_amended_no_newer_points_noop_witness :
    locationsSince dbEmpty 1 (latestDeparture dbEmpty 1) = [] ∧
      process_device_locations lineDist geocodeNone dbEmpty 1 1 defaultThresholds =
        ([], dbEmpty) :=
  ⟨by decide,
    C2_amended_no_newer_points_noop lineDist geocodeNone dbEmpty 1 1 defaultThresholds
      (by decide)⟩

attribute [local semireducible] Rat.add Rat.sub Rat.mul Rat.inv Rat.ofScientific in
/-- C3: after one process call on `dbC` the place aggregates are consistent
(`visit_count = 1`, `total_duration_seconds = 400`, one visit), but after
the per-device reprocess endpoint (which deletes the device's visits
without resetting the place counters and then reprocesses) the sole place
has `visit_count = 2` and `total_duration_seconds = 800` while exactly one
persisted visit references it. -/
theorem C3_reprocess_breaks_aggregates :
    ((process_device_locations lineDist geocodeNone dbC 1 1 defaultThresholds).2.places.map
        (fun p => (p.visit_count, p.total_duration_seconds)) = [(1, 400)]) ∧
      ((process_device_locations lineDist geocodeNone dbC 1 1 defaultThresholds).2.visits.filter
        (fun v => v.place_id == 0)).length = 1 ∧
      ((reprocess_visits lineDist geocodeNone
          (process_device_locations lineDist geocodeNone dbC 1 1 defaultThresholds).2
          1 1 defaultThresholds).2.places.map
        (fun p => (p.visit_count, p.total_duration_seconds)) = [(2, 800)]) ∧
      ((reprocess_visits lineDist geocodeNone
          (process_device_locations lineDist geocodeNone dbC 1 1 defaultThresholds).2
          1 1 defaultThresholds).2.visits.filter
        (fun v => v.place_id == 0)).length = 1 := by
  decide

/-! Helper lemmas about the place-snapping scan. -/

theorem snapScan_spec (dist : Dist) (lat lon : ℚ) :
    ∀ (ps : List PlaceRow) (b : Option (PlaceRow × ℚ)) (c : PlaceRow × ℚ),
      snapScan dist lat lon ps b = some c →
      (b = some c ∨ (c.1 ∈ ps ∧ c.2 = dist lat lon c.1.latitude c.1.longitude)) ∧
        (∀ q ∈ ps, c.2 ≤ dist lat lon q.latitude q.longitude) ∧
        ∀ b0, b = some b0 → c.2 ≤ b0.2 := by
  intro ps
  induction ps with
  | nil =>
    intro b c h
    simp only [snapScan] at h
    refine ⟨Or.inl h, by simp, ?_⟩
    intro b0 hb0
    obtain rfl : b0 = c := Option.some_inj.mp (hb0.symm.trans h)
    exact le_refl _
  | cons p rest ih =>
    intro b c h
    cases b with
    | none =>
      simp only [snapScan] at h
      obtain ⟨hmem, hmin, hbest⟩ := ih _ c h
      refine ⟨?_, ?_, ?_⟩
      · right
        rcases hmem with heq | ⟨hm, hd⟩
        · obtain rfl : (p, dist lat lon p.latitude p.longitude) = c :=
            Option.some_inj.mp heq
          exact ⟨List.mem_cons_self _ _, rfl⟩
        · exact ⟨List.mem_cons_of_mem _ hm, hd⟩
      · intro q hq
        rcases List.mem_cons.1 hq with rfl | hq'
        · exact hbest _ rfl
        · exact hmin q hq'
      · intro b0 hb0
        simp at hb0
    | some bb =>
      obtain ⟨bp, bd⟩ := bb
      simp only [snapScan] at h
      by_cases hlt : dist lat lon p.latitude p.longitude < bd
      · rw [if_pos hlt] at h
        obtain ⟨hmem, hmin, hbest⟩ := ih _ c h
        refine ⟨?_, ?_, ?_⟩
        · right
          rcases hmem with heq | ⟨hm, hd⟩
          · obtain rfl : (p, dist lat lon p.latitude p.longitude) = c :=
              Option.some_inj.mp heq
            exact ⟨List.mem_cons_self _ _, rfl⟩
          · exact ⟨List.mem_cons_of_mem _ hm, hd⟩
        · intro q hq
          rcases List.mem_cons.1 hq with rfl | hq'
          · exact hbest _ rfl
          · exact hmin q hq'
        · intro b0 hb0
          obtain rfl : b0 = (bp, bd) := Option.some_inj.mp hb0.symm
          exact le_trans (hbest _ rfl) (le_of_lt hlt)
      · rw [if_neg hlt] at h
        obtain ⟨hmem, hmin, hbest⟩ := ih _ c h
        refine ⟨?_, ?_, ?_⟩
        · rcases hmem with heq | ⟨hm, hd⟩
          · exact Or.inl heq
          · exact Or.inr ⟨List.mem_cons_of_mem _ hm, hd⟩
        · intro q hq
          rcases List.mem_cons.1 hq with rfl | hq'
          · exact le_trans (hbest _ rfl) (not_lt.1 hlt)
          · exact hmin q hq'
        · intro b0 hb0
          obtain rfl : b0 = (bp, bd) := Option.some_inj.mp hb0.symm
          exact hbest _ rfl

theorem snapScan_isSome (dist : Dist) (lat lon : ℚ) :
    ∀ (ps : List PlaceRow) (b : PlaceRow × ℚ),
      ∃ c, snapScan dist lat lon ps (some b) = some c := by
  intro ps
  induction ps with
  | nil => intro b; exact ⟨b, rfl⟩
  | cons p rest ih =>
    intro b
    obtain ⟨bp, bd⟩ := b
    simp only [snapScan]
    by_cases hlt : dist lat lon p.latitude p.longitude < bd
    · rw [if_pos hlt]; exact ih _
    · rw [if_neg hlt]; exact ih _

/-- C5: for every set of existing places of a user and every coordinate,
`snap_to_place` returns an existing place of the user at minimum distance
when that minimum is within `place_snap_radius_m`, leaving the database
unmodified; otherwise (in particular when the user has no places) it creates
and returns a new place at exactly `(lat, lon)` with `visit_count = 0`,
`total_duration_seconds = 0` and no address.  The two cases are exhaustive:
the operation always succeeds. -/
theorem C5_snap_nearest_or_create (dist : Dist) (db : DB) (usr : ℕ)
    (lat lon : ℚ) (th : Thresholds) :
    ((∃ q ∈ db.places.filter (fun p => p.user_id == usr),
        dist lat lon q.latitude q.longitude ≤ th.place_snap_radius_m) ∧
      (snap_to_place dist db usr lat lon th).1 ∈
          db.places.filter (fun p => p.user_id == usr) ∧
        (∀ q ∈ db.places.filter (fun p => p.user_id == usr),
          dist lat lon (snap_to_place dist db usr lat lon th).1.latitude
              (snap_to_place dist db usr lat lon th).1.longitude ≤
            dist lat lon q.latitude q.longitude) ∧
        (snap_to_place dist db usr lat lon th).2 = db) ∨
    ((∀ q ∈ db.places.filter (fun p => p.user_id == usr),
        th.place_snap_radius_m < dist lat lon q.latitude q.longitude) ∧
      snap_to_place dist db usr lat lon th =
        (PlaceRow.mk db.next_place_id usr lat lon none 0 0,
          DB.mk db.locations
            (db.places ++ [PlaceRow.mk db.next_place_id usr lat lon none 0 0])
            db.visits (db.next_place_id + 1))) := by
  cases hscan : snapScan dist lat lon (db.places.filter (fun p => p.user_id == usr)) none with
  | none =>
    right
    constructor
    · intro q hq
      exfalso
      cases hps : db.places.filter (fun p => p.user_id == usr) with
      | nil => rw [hps] at hq; simp at hq
      | cons p0 ps0 =>
        rw [hps] at hscan
        simp only [snapScan] at hscan
        obtain ⟨c, hc⟩ := snapScan_isSome dist lat lon ps0
          (p0, dist lat lon p0.latitude p0.longitude)
        rw [hc] at hscan
        simp at hscan
    · simp only [snap_to_place]
      rw [hscan]
  | some c =>
    obtain ⟨cp, cd⟩ := c
    obtain ⟨hmem, hmin, -⟩ :=
      snapScan_spec dist lat lon (db.places.filter (fun p => p.user_id == usr)) none _ hscan
    rcases hmem with heq | ⟨hm, hd⟩
    · simp at heq
    · dsimp only at hm hd hmin
      by_cases hr : cd ≤ th.place_snap_radius_m
      · left
        have hs : snap_to_place dist db usr lat lon th = (cp, db) := by
          simp only [snap_to_place]
          rw [hscan]
          dsimp only
          rw [if_pos hr]
        refine ⟨⟨cp, hm, ?_⟩, ?_, ?_, ?_⟩
        · rw [← hd]; exact hr
        · rw [hs]; exact hm
        · intro q hq
          rw [hs]
          dsimp only
          rw [← hd]
          exact hmin q hq
        · rw [hs]
      · right
        constructor
        · intro q hq
          exact lt_of_lt_of_le (not_le.1 hr) (hmin q hq)
        · simp only [snap_to_place]
          rw [hscan]
          dsimp only
          rw [if_neg hr]

attribute [local semireducible] Rat.add Rat.sub Rat.mul Rat.inv Rat.ofScientific in
/-- C5 witness: applying the snap characterization to a user with no places
shows the created place sits at exactly the requested coordinate with zero
counters and no address. -/
theorem C5_snap_nearest_or_create_witness :
    snap_to_place lineDist dbEmpty 1 5 7 defaultThresholds =
      (PlaceRow.mk 0 1 5 7 none 0 0,
        DB.mk [] [PlaceRow.mk 0 1 5 7 none 0 0] [] 1) := by
  rcases C5_snap_nearest_or_create lineDist dbEmpty 1 5 7 defaultThresholds with
    ⟨⟨q, hq, -⟩, -⟩ | ⟨-, h⟩
  · simp [dbEmpty] at hq
  · simpa [dbEmpty] using h

/-! Helper lemmas about the running centroid. -/

theorem incrementalCentroid_singleton (x : ℚ) : incrementalCentroid [x] = x := rfl

theorem centroidRun_append (x : ℚ) :
    ∀ (xs : List ℚ) (c : ℚ) (n : ℕ),
      centroidRun c n (xs ++ [x]) = centroidStep (centroidRun c n xs) (n + xs.length) x := by
  intro xs
  induction xs with
  | nil => intro c n; simp [centroidRun]
  | cons y ys ih =>
    intro c n
    simp only [List.cons_append, centroidRun, List.append_eq]
    rw [ih, List.length_cons]
    congr 1
    omega

theorem centroidRun_eq_div :
    ∀ (xs : List ℚ) (c : ℚ) (n : ℕ), 1 ≤ n →
      centroidRun c n xs = (c * n + xs.sum) / (n + xs.length) := by
  intro xs
  induction xs with
  | nil =>
    intro c n hn
    have hn0 : ((n : ℚ)) ≠ 0 := Nat.cast_ne_zero.2 (by omega)
    simp only [centroidRun, List.sum_nil, List.length_nil, Nat.cast_zero, add_zero]
    field_simp
  | cons y ys ih =>
    intro c n hn
    simp only [centroidRun, List.sum_cons, List.length_cons]
    rw [ih _ (n + 1) (by omega)]
    have h1 : ((n : ℚ)) + 1 ≠ 0 := by positivity
    have h2 : ((n : ℚ)) + (ys.length : ℚ) + 1 ≠ 0 := by positivity
    simp only [centroidStep]
    push_cast
    field_simp
    ring

theorem incrementalCentroid_append (l : List ℚ) (x : ℚ) (h : l ≠ []) :
    incrementalCentroid (l ++ [x]) = centroidStep (incrementalCentroid l) l.length x := by
  cases l with
  | nil => exact absurd rfl h
  | cons y ys =>
    simp only [incrementalCentroid, List.cons_append]
    rw [centroidRun_append, List.length_cons]
    congr 1
    omega

theorem incrementalCentroid_eq_mean (l : List ℚ) (h : l ≠ []) :
    incrementalCentroid l = l.sum / l.length := by
  cases l with
  | nil => exact absurd rfl h
  | cons y ys =>
    simp only [incrementalCentroid, List.sum_cons, List.length_cons]
    rw [centroidRun_eq_div ys y 1 le_rfl]
    push_cast
    ring_nf

theorem maybeEmit_centroid (pts cluster : List GPoint) (cx cy : ℚ)
    (visits : List CandVisit) (minDur : ℚ)
    (hsub : cluster.Sublist pts)
    (hcx : cx = incrementalCentroid (cluster.map GPoint.latitude))
    (hcy : cy = incrementalCentroid (cluster.map GPoint.longitude))
    (hv : ∀ w ∈ visits, fromRunningCentroid pts w) :
    ∀ v ∈ maybeEmitVisit cluster cx cy visits minDur, fromRunningCentroid pts v := by
  rcases maybeEmitVisit_eq cluster cx cy visits minDur with h | ⟨hne, hl, hd, heq⟩
  · rw [h]; exact hv
  · rw [heq]
    intro v hvmem
    rcases List.mem_append.1 hvmem with h1 | h1
    · exact hv v h1
    · simp only [List.mem_singleton] at h1
      subst h1
      exact ⟨cluster, hl, hsub, hcx, hcy⟩

theorem detectLoop_centroid_aux (dist : Dist) (radius minDur : ℚ) (pts : List GPoint) :
    ∀ (rest cluster : List GPoint) (cx cy : ℚ) (visits : List CandVisit),
      cluster ≠ [] →
      (cluster ++ rest).Sublist pts →
      cx = incrementalCentroid (cluster.map GPoint.latitude) →
      cy = incrementalCentroid (cluster.map GPoint.longitude) →
      (∀ w ∈ visits, fromRunningCentroid pts w) →
      ∀ v ∈ detectLoop dist radius minDur rest cluster cx cy visits,
        fromRunningCentroid pts v := by
  intro rest
  induction rest with
  | nil =>
    intro cluster cx cy visits hne hsub hcx hcy hv
    rw [List.append_nil] at hsub
    exact maybeEmit_centroid pts cluster cx cy visits minDur hsub hcx hcy hv
  | cons pt rest' ih =>
    intro cluster cx cy visits hne hsub hcx hcy hv
    have hsub2 : (cluster ++ (pt :: rest')).Sublist pts := hsub
    simp only [detectLoop]
    by_cases hdist : dist cx cy pt.latitude pt.longitude ≤ radius
    · rw [if_pos hdist]
      have hcast : (((cluster ++ [pt]).length : ℕ) : ℚ) = (cluster.length : ℚ) + 1 := by
        push_cast [List.length_append, List.length_singleton]
        ring
      apply ih (cluster ++ [pt]) _ _ _ (by simp)
        (by simpa [List.append_assoc] using hsub2) ?_ ?_ hv
      · simp only [List.map_append, List.map_cons, List.map_nil]
        rw [incrementalCentroid_append _ _ (by simpa using hne), hcast, hcx]
        simp only [centroidStep, List.length_map]
      · simp only [List.map_append, List.map_cons, List.map_nil]
        rw [incrementalCentroid_append _ _ (by simpa using hne), hcast, hcy]
        simp only [centroidStep, List.length_map]
    · rw [if_neg hdist]
      apply ih [pt] _ _ _ (by simp) ?_ rfl rfl ?_
      · exact ((List.sublist_append_right cluster (pt :: rest')).trans hsub2)
      · exact maybeEmit_centroid pts cluster cx cy visits minDur
          ((List.sublist_append_left cluster (pt :: rest')).trans hsub2) hcx hcy hv

/-- C6: every visit emitted by `detect_visits` carries as coordinates the
running centroid of its cluster at the moment the cluster closes: there is
an at-least-two-point sub-collection `c` of the input whose fold under the
incremental rule `centroid += (point - centroid) / cluster_size` equals the
visit's coordinates, and (in exact arithmetic) that running centroid equals
the arithmetic mean of the member coordinates. -/
theorem C6_running_centroid (dist : Dist) (th : Thresholds) (points : List GPoint) :
    ∀ v ∈ detect_visits dist th points,
      ∃ c : List GPoint, 2 ≤ c.length ∧ c.Sublist points ∧
        v.latitude = incrementalCentroid (c.map GPoint.latitude) ∧
        v.longitude = incrementalCentroid (c.map GPoint.longitude) ∧
        incrementalCentroid (c.map GPoint.latitude) =
          (c.map GPoint.latitude).sum / (c.length : ℚ) ∧
        incrementalCentroid (c.map GPoint.longitude) =
          (c.map GPoint.longitude).sum / (c.length : ℚ) := by
  intro v hv
  cases points with
  | nil => simp [detect_visits] at hv
  | cons p rest =>
    simp only [detect_visits] at hv
    by_cases hlen : (p :: rest).length < 2
    · rw [if_pos hlen] at hv
      simp at hv
    · rw [if_neg hlen] at hv
      have h := detectLoop_centroid_aux dist th.visit_radius_m th.min_visit_duration_s
        (p :: rest) rest [p] p.latitude p.longitude [] (by simp)
        (by simpa using List.Sublist.refl (p :: rest)) rfl rfl (by simp) v hv
      obtain ⟨c, hcl, hcs, hlat, hlon⟩ := h
      have hcne : c ≠ [] := by
        intro hc
        rw [hc] at hcl
        simp at hcl
      refine ⟨c, hcl, hcs, hlat, hlon, ?_, ?_⟩
      · rw [incrementalCentroid_eq_mean _ (by simpa using hcne), List.length_map]
      · rw [incrementalCentroid_eq_mean _ (by simpa using hcne), List.length_map]

attribute [local semireducible] Rat.add Rat.sub Rat.mul Rat.inv Rat.ofScientific in
/-- C6 witness: the centroid characterization evaluated at the first visit
the detector emits on `ptsA`. -/
theorem C6_running_centroid_witness :
    ∃ c : List GPoint, 2 ≤ c.length ∧ c.Sublist ptsA ∧
      vA.latitude = incrementalCentroid (c.map GPoint.latitude) ∧
      vA.longitude = incrementalCentroid (c.map GPoint.longitude) ∧
      incrementalCentroid (c.map GPoint.latitude) =
        (c.map GPoint.latitude).sum / (c.length : ℚ) ∧
      incrementalCentroid (c.map GPoint.longitude) =
        (c.map GPoint.longitude).sum / (c.length : ℚ) :=
  C6_running_centroid lineDist defaultThresholds ptsA vA (by decide)

/-! Helper lemmas for the chronological-order invariant. -/

theorem head_ts_le_getLast_ts (l : List GPoint) (h : l ≠ []) (hp : l.Pairwise tsLe) :
    (l.head h).timestamp ≤ (l.getLast h).timestamp := by
  cases l with
  | nil => exact absurd rfl h
  | cons p rest =>
    cases rest with
    | nil => simp [List.getLast_singleton]
    | cons q rest' =>
      rw [List.head_cons, List.getLast_cons (List.cons_ne_nil q rest')]
      exact (List.pairwise_cons.1 hp).1 _ (List.getLast_mem (List.cons_ne_nil q rest'))

theorem maybeEmit_chrono (cluster : List GPoint) (cx cy : ℚ) (visits : List CandVisit)
    (minDur : ℚ) (hne0 : cluster ≠ []) (hp : cluster.Pairwise tsLe)
    (hch : visits.Chain' (fun u v => u.departure ≤ v.arrival))
    (hin : ∀ w ∈ visits, w.arrival ≤ w.departure)
    (hlast : ∀ w ∈ visits, ∀ p ∈ cluster, w.departure ≤ p.timestamp) :
    (maybeEmitVisit cluster cx cy visits minDur).Chain'
        (fun u v => u.departure ≤ v.arrival) ∧
      (∀ w ∈ maybeEmitVisit cluster cx cy visits minDur, w.arrival ≤ w.departure) ∧
      ∀ w ∈ maybeEmitVisit cluster cx cy visits minDur, ∀ t : ℚ,
        (∀ p ∈ cluster, p.timestamp ≤ t) → w.departure ≤ t := by
  rcases maybeEmitVisit_eq cluster cx cy visits minDur with h | ⟨hne, hl, hd, heq⟩
  · rw [h]
    refine ⟨hch, hin, ?_⟩
    intro w hw t ht
    exact le_trans (hlast w hw _ (List.getLast_mem hne0)) (ht _ (List.getLast_mem hne0))
  · rw [heq]
    have hheadmem : cluster.head hne ∈ cluster := List.head_mem hne
    have hlastmem : cluster.getLast hne ∈ cluster := List.getLast_mem hne
    refine ⟨?_, ?_, ?_⟩
    · rw [List.chain'_append]
      refine ⟨hch, List.chain'_singleton _, ?_⟩
      intro x hx y hy
      simp only [List.head?_cons, Option.mem_def, Option.some_inj] at hy
      subst hy
      exact hlast x (List.mem_of_mem_getLast? hx) _ hheadmem
    · intro w hw
      rcases List.mem_append.1 hw with h1 | h1
      · exact hin w h1
      · simp only [List.mem_singleton] at h1
        subst h1
        exact head_ts_le_getLast_ts cluster hne hp
    · intro w hw t ht
      rcases List.mem_append.1 hw with h1 | h1
      · exact le_trans (hlast w h1 _ hlastmem) (ht _ hlastmem)
      · simp only [List.mem_singleton] at h1
        subst h1
        exact ht _ hlastmem

theorem detectLoop_chrono_aux (dist : Dist) (radius minDur : ℚ) :
    ∀ (rest cluster : List GPoint) (cx cy : ℚ) (visits : List CandVisit),
      cluster ≠ [] →
      (cluster ++ rest).Pairwise tsLe →
      visits.Chain' (fun u v => u.departure ≤ v.arrival) →
      (∀ w ∈ visits, w.arrival ≤ w.departure) →
      (∀ w ∈ visits, ∀ p ∈ cluster ++ rest, w.departure ≤ p.timestamp) →
      (detectLoop dist radius minDur rest cluster cx cy visits).Chain'
          (fun u v => u.departure ≤ v.arrival) ∧
        ∀ v ∈ detectLoop dist radius minDur rest cluster cx cy visits,
          v.arrival ≤ v.departure := by
  intro rest
  induction rest with
  | nil =>
    intro cluster cx cy visits hne hp hch hin hlast
    rw [List.append_nil] at hp hlast
    obtain ⟨h1, h2, -⟩ := maybeEmit_chrono cluster cx cy visits minDur hne hp hch hin hlast
    exact ⟨h1, h2⟩
  | cons pt rest' ih =>
    intro cluster cx cy visits hne hp hch hin hlast
    simp only [detectLoop]
    by_cases hdist : dist cx cy pt.latitude pt.longitude ≤ radius
    · rw [if_pos hdist]
      apply ih (cluster ++ [pt]) _ _ visits (by simp) ?_ hch hin ?_
      · simpa [List.append_assoc] using hp
      · intro w hw p hpmem
        apply hlast w hw
        simpa [List.append_assoc] using hpmem
    · rw [if_neg hdist]
      have hpc : cluster.Pairwise tsLe :=
        List.Pairwise.sublist (List.sublist_append_left cluster (pt :: rest')) hp
      obtain ⟨hch2, hin2, hthird⟩ :=
        maybeEmit_chrono cluster cx cy visits minDur hne hpc hch hin
          (fun w hw p hpmem => hlast w hw p (List.mem_append_left _ hpmem))
      apply ih [pt] _ _ _ (List.cons_ne_nil pt []) ?_ hch2 hin2 ?_
      · rw [List.singleton_append]
        exact List.Pairwise.sublist (List.sublist_append_right cluster (pt :: rest')) hp
      · intro w hw p hpmem
        apply hthird w hw p.timestamp
        intro q hq
        rw [List.singleton_append] at hpmem
        exact (List.pairwise_append.1 hp).2.2 q hq p hpmem

/-- C10: on a timestamp-sorted input, the visits returned by `detect_visits`
satisfy arrival ≤ departure and come in chronological order with
non-overlapping spans: each visit's departure is at most the next visit's
arrival, because clusters are disjoint consecutive runs of the input. -/
theorem C10_visits_chronological (dist : Dist) (th : Thresholds) (points : List GPoint)
    (hsorted : points.Pairwise tsLe) :
    (∀ v ∈ detect_visits dist th points, v.arrival ≤ v.departure) ∧
      (detect_visits dist th points).Chain' (fun u v => u.departure ≤ v.arrival) := by
  cases points with
  | nil => simp [detect_visits]
  | cons p rest =>
    simp only [detect_visits]
    by_cases hlen : (p :: rest).length < 2
    · rw [if_pos hlen]
      simp
    · rw [if_neg hlen]
      obtain ⟨h1, h2⟩ := detectLoop_chrono_aux dist th.visit_radius_m th.min_visit_duration_s
        rest [p] p.latitude p.longitude [] (List.cons_ne_nil p [])
        (by rwa [List.singleton_append]) List.chain'_nil (by simp) (by simp)
      exact ⟨h2, h1⟩

attribute [local semireducible] Rat.add Rat.sub Rat.mul Rat.inv Rat.ofScientific in
/-- C10 witness: the chronological-order property evaluated on the sorted
trace `ptsA`, whose detector output has two visits with departure 300 ≤
arrival 360. -/
theorem C10_visits_chronological_witness :
    List.Pairwise tsLe ptsA ∧
      ((∀ v ∈ detect_visits lineDist defaultThresholds ptsA,
          v.arrival ≤ v.departure) ∧
        (detect_visits lineDist defaultThresholds ptsA).Chain'
          (fun u v => u.departure ≤ v.arrival)) :=
  ⟨by decide, C10_visits_chronological lineDist defaultThresholds ptsA (by decide)⟩

/-! Helper lemmas for the geocode-failure claim. -/

theorem snap_to_place_cases (dist : Dist) (db : DB) (usr : ℕ) (lat lon : ℚ)
    (th : Thresholds) :
    ((snap_to_place dist db usr lat lon th).1 ∈ db.places ∧
      (snap_to_place dist db usr lat lon th).2 = db) ∨
    ((snap_to_place dist db usr lat lon th).1.address = none ∧
      (snap_to_place dist db usr lat lon th).2.places =
        db.places ++ [(snap_to_place dist db usr lat lon th).1]) := by
  cases hscan : snapScan dist lat lon (db.places.filter (fun p => p.user_id == usr)) none with
  | none =>
    right
    have hs : snap_to_place dist db usr lat lon th =
        (PlaceRow.mk db.next_place_id usr lat lon none 0 0,
          DB.mk db.locations
            (db.places ++ [PlaceRow.mk db.next_place_id usr lat lon none 0 0])
            db.visits (db.next_place_id + 1)) := by
      simp only [snap_to_place]
      rw [hscan]
    rw [hs]
    exact ⟨rfl, rfl⟩
  | some c =>
    obtain ⟨cp, cd⟩ := c
    by_cases hr : cd ≤ th.place_snap_radius_m
    · left
      have hs : snap_to_place dist db usr lat lon th = (cp, db) := by
        simp only [snap_to_place]
        rw [hscan]
        dsimp only
        rw [if_pos hr]
      obtain ⟨hmem, -, -⟩ :=
        snapScan_spec dist lat lon (db.places.filter (fun p => p.user_id == usr)) none _ hscan
      rcases hmem with heq | ⟨hm, -⟩
      · simp at heq
      · rw [hs]
        exact ⟨(List.mem_filter.1 hm).1, rfl⟩
    · right
      have hs : snap_to_place dist db usr lat lon th =
          (PlaceRow.mk db.next_place_id usr lat lon none 0 0,
            DB.mk db.locations
              (db.places ++ [PlaceRow.mk db.next_place_id usr lat lon none 0 0])
              db.visits (db.next_place_id + 1)) := by
        simp only [snap_to_place]
        rw [hscan]
        dsimp only
        rw [if_neg hr]
      rw [hs]
      exact ⟨rfl, rfl⟩

theorem snapStep_places_address (dist : Dist) (db : DB) (usr : ℕ) (lat lon : ℚ)
    (th : Thresholds) (pl3 : PlaceRow)
    (hpl3 : pl3.address = (snap_to_place dist db usr lat lon th).1.address) :
    ∀ p2 ∈ updatePlace (snap_to_place dist db usr lat lon th).2.places
        (snap_to_place dist db usr lat lon th).1.id (fun _ => pl3),
      p2.address = none ∨ ∃ p1 ∈ db.places, p2.address = p1.address := by
  intro p2 hp2
  obtain ⟨p0, hp0mem, hp0eq⟩ := List.mem_map.1 hp2
  dsimp only at hp0eq
  rcases snap_to_place_cases dist db usr lat lon th with ⟨hmem, heqdb⟩ | ⟨haddr, hplaces⟩
  · rw [heqdb] at hp0mem
    by_cases hid : p0.id = (snap_to_place dist db usr lat lon th).1.id
    · rw [if_pos hid] at hp0eq
      subst hp0eq
      exact Or.inr ⟨_, hmem, hpl3⟩
    · rw [if_neg hid] at hp0eq
      subst hp0eq
      exact Or.inr ⟨p0, hp0mem, rfl⟩
  · rw [hplaces] at hp0mem
    by_cases hid : p0.id = (snap_to_place dist db usr lat lon th).1.id
    · rw [if_pos hid] at hp0eq
      subst hp0eq
      exact Or.inl (hpl3.trans haddr)
    · rw [if_neg hid] at hp0eq
      subst hp0eq
      rcases List.mem_append.1 hp0mem with hmem0 | hmem0
      · exact Or.inr ⟨p0, hmem0, rfl⟩
      · simp only [List.mem_singleton] at hmem0
        subst hmem0
        exact Or.inl haddr

theorem snapLoop_geocode_fail (dist : Dist) (dev usr : ℕ) (th : Thresholds) :
    ∀ (cands : List CandVisit) (acc : List VisitRow) (db : DB),
      (snapLoop dist (fun _ _ => none) dev usr th cands acc db).1.length =
          acc.length + cands.length ∧
        ∀ p2 ∈ (snapLoop dist (fun _ _ => none) dev usr th cands acc db).2.places,
          p2.address = none ∨ ∃ p1 ∈ db.places, p2.address = p1.address := by
  intro cands
  induction cands with
  | nil =>
    intro acc db
    refine ⟨by simp [snapLoop], ?_⟩
    intro p2 hp2
    simp only [snapLoop] at hp2
    exact Or.inr ⟨p2, hp2, rfl⟩
  | cons v rest ih =>
    intro acc db
    simp only [snapLoop, ite_self]
    obtain ⟨ihlen, ihaddr⟩ := ih (acc ++
      [VisitRow.mk dev (snap_to_place dist db usr v.latitude v.longitude th).1.id
        v.latitude v.longitude v.arrival v.departure v.duration_seconds
        (snap_to_place dist db usr v.latitude v.longitude th).1.address])
      (DB.mk (snap_to_place dist db usr v.latitude v.longitude th).2.locations
        (updatePlace (snap_to_place dist db usr v.latitude v.longitude th).2.places
          (snap_to_place dist db usr v.latitude v.longitude th).1.id
          (fun _ => PlaceRow.mk (snap_to_place dist db usr v.latitude v.longitude th).1.id
            (snap_to_place dist db usr v.latitude v.longitude th).1.user_id
            (snap_to_place dist db usr v.latitude v.longitude th).1.latitude
            (snap_to_place dist db usr v.latitude v.longitude th).1.longitude
            (snap_to_place dist db usr v.latitude v.longitude th).1.address
            ((snap_to_place dist db usr v.latitude v.longitude th).1.visit_count + 1)
            ((snap_to_place dist db usr v.latitude v.longitude th).1.total_duration_seconds
              + v.duration_seconds)))
        ((snap_to_place dist db usr v.latitude v.longitude th).2.visits ++
          [VisitRow.mk dev (snap_to_place dist db usr v.latitude v.longitude th).1.id
            v.latitude v.longitude v.arrival v.departure v.duration_seconds
            (snap_to_place dist db usr v.latitude v.longitude th).1.address])
        (snap_to_place dist db usr v.latitude v.longitude th).2.next_place_id)
    refine ⟨?_, ?_⟩
    · rw [ihlen]
      simp [List.length_append]
      omega
    · intro p2 hp2
      have h2 := ihaddr p2 hp2
      rcases h2 with h2 | ⟨p1, hp1mem, hp1eq⟩
      · exact Or.inl h2
      · simp only at hp1mem
        have hstep := snapStep_places_address dist db usr v.latitude v.longitude th
          (PlaceRow.mk (snap_to_place dist db usr v.latitude v.longitude th).1.id
            (snap_to_place dist db usr v.latitude v.longitude th).1.user_id
            (snap_to_place dist db usr v.latitude v.longitude th).1.latitude
            (snap_to_place dist db usr v.latitude v.longitude th).1.longitude
            (snap_to_place dist db usr v.latitude v.longitude th).1.address
            ((snap_to_place dist db usr v.latitude v.longitude th).1.visit_count + 1)
            ((snap_to_place dist db usr v.latitude v.longitude th).1.total_duration_seconds
              + v.duration_seconds))
          rfl p1 hp1mem
        rcases hstep with hstep | ⟨p0, hp0mem, hp0eq⟩
        · exact Or.inl (hp1eq.trans hstep)
        · exact Or.inr ⟨p0, hp0mem, hp1eq.trans hp0eq⟩

/-- C9: a failed reverse-geocoding lookup is never propagated as a pipeline
error: `reverse_geocode` returns no address on a raised request exception
and on any non-200 response, and with an always-failing geocoder the
pipeline still persists one visit per candidate while every place's address
is left as it was (null for places created during the run). -/
theorem C9_geocode_failure_recovered :
    reverse_geocode none = none ∧
      (∀ (s : ℕ) (b : Option String), s ≠ 200 → reverse_geocode (some (s, b)) = none) ∧
      ∀ (dist : Dist) (db : DB) (dev usr : ℕ) (since : Option ℚ) (th : Thresholds),
        (process_locations_since dist (fun _ _ => none) db dev usr since th).1.length =
            (detect_visits dist th
              (filter_gps_errors th (locationsSince db dev since))).length ∧
          ∀ p2 ∈ (process_locations_since dist (fun _ _ => none) db dev usr since th).2.places,
            p2.address = none ∨ ∃ p1 ∈ db.places, p2.address = p1.address := by
  refine ⟨rfl, ?_, ?_⟩
  · intro s b hs
    simp [reverse_geocode, hs]
  · intro dist db dev usr since th
    simp only [process_locations_since]
    by_cases h1 : locationsSince db dev since = []
    · rw [if_pos h1, h1]
      exact ⟨rfl, fun p2 hp2 => Or.inr ⟨p2, hp2, rfl⟩⟩
    · rw [if_neg h1]
      by_cases h2 : filter_gps_errors th (locationsSince db dev since) = []
      · rw [if_pos h2, h2]
        exact ⟨rfl, fun p2 hp2 => Or.inr ⟨p2, hp2, rfl⟩⟩
      · rw [if_neg h2]
        by_cases h3 : detect_visits dist th
            (filter_gps_errors th (locationsSince db dev since)) = []
        · rw [if_pos h3, h3]
          exact ⟨rfl, fun p2 hp2 => Or.inr ⟨p2, hp2, rfl⟩⟩
        · rw [if_neg h3]
          obtain ⟨hlen, haddr⟩ := snapLoop_geocode_fail dist dev usr th
            (detect_visits dist th (filter_gps_errors th (locationsSince db dev since))) [] db
          exact ⟨by rw [hlen]; simp, haddr⟩

attribute [local semireducible] Rat.add Rat.sub Rat.mul Rat.inv Rat.ofScientific in
/-- C9 witness: a 404 response yields no address, and the pipeline with an
always-failing geocoder still persists one visit per detected candidate on
`dbA`. -/
theorem C9_geocode_failure_recovered_witness :
    reverse_geocode (some (404, some "somewhere")) = none ∧
      (process_locations_since lineDist (fun _ _ => none) dbA 1 1 none
          defaultThresholds).1.length =
        (detect_visits lineDist defaultThresholds
          (filter_gps_errors defaultThresholds (locationsSince dbA 1 none))).length :=
  ⟨C9_geocode_failure_recovered.2.1 404 (some "somewhere") (by decide),
    (C9_geocode_failure_recovered.2.2 lineDist dbA 1 1 none defaultThresholds).1⟩

end Locations
